import Mathlib

/-! Verification of the dioad/cli configuration library.

A shallow embedding of the repository's configuration pipeline:
name validation, default path resolution, `InitConfig`'s control flow,
the layered configuration store, the decode-hook chain and the logging
level configuration.  Pure Go functions are translated to Lean
functions; filesystem and third-party-library effects are made explicit
through environment records whose fields are the outcomes the Go code
branches on.
-/

namespace Cli

/-- A Go `error` is modelled by its message string. -/
abbrev GoErr := String

/-! ## Name validation (`ValidateName`, config.go) -/

/-- `os.PathSeparator` on the targeted platform (linux): `/`. -/
def pathSeparator : Char := '/'

/-- `unicode.IsSpace`: the Unicode white-space property, as consulted by
`strings.TrimSpace`. -/
def goIsSpace (c : Char) : Bool :=
  c.toNat = 9 || c.toNat = 10 || c.toNat = 11 || c.toNat = 12 || c.toNat = 13 ||
  c.toNat = 32 || c.toNat = 0x85 || c.toNat = 0xA0 ||
  c.toNat = 0x1680 || (0x2000 ≤ c.toNat && c.toNat ≤ 0x200A) ||
  c.toNat = 0x2028 || c.toNat = 0x2029 || c.toNat = 0x202F ||
  c.toNat = 0x205F || c.toNat = 0x3000

/-- `strings.TrimSpace` on the rune sequence of a string. -/
def trimSpace (cs : List Char) : List Char :=
  (((cs.dropWhile goIsSpace).reverse).dropWhile goIsSpace).reverse

/-- The special-character string iterated by `ValidateName`, in source
order: `/`, `\`, `:`, `*`, `?`, `"`, `<`, `>`, `|`, `(`, `)`, `{`, `}`,
`[`, `]`, `!`, `@`, `#`, `$`, `%`, `^`, `&`, `*`, `+`, `=`, `~` and a
backtick (codepoints 123, 125 and 96 written numerically). -/
def specialChars : List Char :=
  ['/', '\\', ':', '*', '?', '"', '<', '>', '|', '(', ')',
   Char.ofNat 123, Char.ofNat 125, '[', ']', '!', '@', '#', '$', '%', '^',
   '&', '*', '+', '=', '~', Char.ofNat 96]

/-- `ValidateName` from the source, returning `some errorMessage` when the
name is rejected and `none` when it is accepted.  `strings.Contains` with
a single-rune needle is rune membership; the source's loop over
`specialChars` returns the message of the first contained special
character, i.e. `List.find?` composed with the message constructor. -/
def ValidateName (name : String) : Option String :=
  if trimSpace name.toList = [] then some "name must not be empty"
  else if pathSeparator ∈ name.toList then some "name must not contain path separators"
  else if name = "." ∨ name = ".." then some "name must not be . or .."
  else if name.toList.head? = some ' ' then some "name must not start with a space"
  else if name.toList.getLast? = some ' ' then some "name must not end with a space"
  else if ' ' ∈ name.toList then some "name must not contain spaces"
  else (specialChars.find? fun ch => name.toList.contains ch).map
    fun ch => "name must not contain special characters like " ++ String.mk [ch]

/-- `ValidateOrgAndAppName` from the source: validates both names,
wrapping the failure with the offending field. -/
def ValidateOrgAndAppName (orgName appName : String) : Option String :=
  match ValidateName orgName with
  | some e => some ("invalid orgName: " ++ e)
  | none =>
    match ValidateName appName with
    | some e => some ("invalid appName: " ++ e)
    | none => none

/-- The forbidden special-character set exactly as the claim lists it:
`/`, `\`, `:`, `*`, `?`, `"`, `<`, `>`, `|`, `(`, `)`, `[`, `]`, `{`,
`}`, `!`, `@`, `#`, `$`, `%`, `^`, `&`, `+`, `=`, `~`, backtick. -/
def claimSpecialChars : List Char :=
  ['/', '\\', ':', '*', '?', '"', '<', '>', '|', '(', ')', '[', ']',
   Char.ofNat 123, Char.ofNat 125, '!', '@', '#', '$', '%', '^', '&',
   '+', '=', '~', Char.ofNat 96]

/-- The claim's failure condition for `ValidateName`, stated from the
spec's words: empty or whitespace-only, contains a path separator,
equals `.` or `..`, leading or trailing space, embedded space, or a
forbidden special character. -/
def NameFails (name : String) : Prop :=
  (∀ c ∈ name.toList, goIsSpace c) ∨ pathSeparator ∈ name.toList ∨
  name = "." ∨ name = ".." ∨
  name.toList.head? = some ' ' ∨ name.toList.getLast? = some ' ' ∨
  ' ' ∈ name.toList ∨ ∃ c ∈ claimSpecialChars, c ∈ name.toList

lemma all_dropWhile_iff (p : Char → Bool) (l : List Char) :
    (∀ c ∈ l.dropWhile p, p c) ↔ ∀ c ∈ l, p c := by
  induction l with
  | nil => simp
  | cons a l ih =>
    by_cases h : p a
    · simp [List.dropWhile_cons, h, ih]
    · simp [List.dropWhile_cons, h]

lemma mem_of_mem_dropWhile (p : Char → Bool) (l : List Char) :
    ∀ c ∈ l.dropWhile p, c ∈ l := by
  induction l with
  | nil => simp
  | cons a l ih =>
    intro c hc
    by_cases h : p a
    · simp only [List.dropWhile_cons, h, if_true] at hc
      exact List.mem_cons_of_mem a (ih c hc)
    · simpa [List.dropWhile_cons, h] using hc

lemma trimSpace_eq_nil_iff (cs : List Char) :
    trimSpace cs = [] ↔ ∀ c ∈ cs, goIsSpace c := by
  unfold trimSpace
  rw [List.reverse_eq_nil_iff, List.dropWhile_eq_nil_iff]
  constructor
  · intro h c hc
    exact (all_dropWhile_iff goIsSpace cs).mp (fun d hd => h d (List.mem_reverse.mpr hd)) c hc
  · intro h c hc
    exact h c (mem_of_mem_dropWhile goIsSpace cs c (List.mem_reverse.mp hc))

lemma mem_specialChars_iff (c : Char) : c ∈ specialChars ↔ c ∈ claimSpecialChars := by
  have hp : specialChars.Perm ('*' :: claimSpecialChars) := by decide
  rw [hp.mem_iff, List.mem_cons]
  constructor
  · rintro (rfl | h)
    · decide
    · exact h
  · intro h
    exact Or.inr h

/-- C5: `ValidateName` fails exactly when the name is empty or
whitespace-only, contains a path separator, equals `.` or `..`, has a
leading or trailing space, contains an embedded space, or contains a
character of the forbidden special set; it succeeds on all other names
(non-ASCII Unicode letters included, since they satisfy none of the
failure conditions). -/
theorem validateName_fails_iff (name : String) :
    (ValidateName name).isSome = true ↔ NameFails name := by
  unfold ValidateName NameFails
  split
  next h => simpa using Or.inl ((trimSpace_eq_nil_iff _).mp h)
  next h1 =>
  split
  next h => simpa using Or.inr (Or.inl h)
  next h2 =>
  split
  next h =>
    rcases h with h | h
    · simpa using Or.inr (Or.inr (Or.inl h))
    · simpa using Or.inr (Or.inr (Or.inr (Or.inl h)))
  next h3 =>
  split
  next h => simpa using Or.inr (Or.inr (Or.inr (Or.inr (Or.inl h))))
  next h4 =>
  split
  next h => simpa using Or.inr (Or.inr (Or.inr (Or.inr (Or.inr (Or.inl h)))))
  next h5 =>
  split
  next h =>
    simpa using Or.inr (Or.inr (Or.inr (Or.inr (Or.inr (Or.inr (Or.inl h))))))
  next h6 =>
  cases hfind : specialChars.find? (fun ch => name.toList.contains ch) with
  | some ch =>
    have hm := List.mem_of_find?_eq_some hfind
    have hc : name.toList.contains ch = true := List.find?_some hfind
    simp only [Option.map_some', Option.isSome_some, true_iff]
    refine Or.inr (Or.inr (Or.inr (Or.inr (Or.inr (Or.inr (Or.inr ⟨ch, ?_, ?_⟩))))))
    · exact (mem_specialChars_iff ch).mp hm
    · simpa using hc
  | none =>
    simp only [Option.map_none', Option.isSome_none, Bool.false_eq_true, false_iff]
    intro hNF
    rcases hNF with h | h | h | h | h | h | h | ⟨c, hcl, hcs⟩
    · exact h1 ((trimSpace_eq_nil_iff _).mpr h)
    · exact h2 h
    · exact h3 (Or.inl h)
    · exact h3 (Or.inr h)
    · exact h4 h
    · exact h5 h
    · exact h6 h
    · have hnone := List.find?_eq_none.mp hfind c ((mem_specialChars_iff c).mpr hcl)
      exact absurd hcs (by simpa using hnone)

/-! ## Path resolution (`DefaultUserConfigPath`, `DefaultConfigPath`,
`DefaultPersistencePath`, `IsDocker`) -/

/-- One step of `path/filepath.Clean`: fold a path element onto the
stack of already-emitted elements.  Empty and `.` elements are dropped;
`..` pops the previous element when possible, is dropped at the root,
and is kept when there is nothing to pop in a relative path. -/
def cleanStep (rooted : Bool) (out : List String) (seg : String) : List String :=
  if seg = "" ∨ seg = "." then out
  else if seg = ".." then
    match out.getLast? with
    | some e => if e = ".." then out ++ [".."] else out.dropLast
    | none => if rooted then [] else [".."]
  else out ++ [seg]

/-- Split a rune sequence on a separator rune (the semantics of
`strings.Split` with a one-rune separator). -/
def splitOnChar (sep : Char) : List Char → List (List Char)
  | [] => [[]]
  | c :: rest =>
    match splitOnChar sep rest with
    | [] => [[]]
    | s :: ss => if c = sep then [] :: s :: ss else (c :: s) :: ss

/-- `path/filepath.Clean` (forward-slash separator): shortest equivalent
lexical path. -/
def goClean (path : String) : String :=
  if path = "" then "."
  else
    let rooted := path.toList.head? = some '/'
    let segs := (splitOnChar '/' path.toList).map String.mk
    let out := segs.foldl (cleanStep rooted) []
    let joined := String.intercalate "/" out
    if rooted then "/" ++ joined
    else if joined = "" then "." else joined

/-- `filepath.Join`: drop empty elements, join the rest with `/`, then
`Clean` the result; all-empty input yields the empty string. -/
def goFilepathJoin (elems : List String) : String :=
  let nonEmpty := elems.filter fun e => e ≠ ""
  if nonEmpty = [] then "" else goClean (String.intercalate "/" nonEmpty)

instance {ε α : Type} [DecidableEq ε] [DecidableEq α] : DecidableEq (Except ε α) := fun a b =>
  match a, b with
  | .error e, .error f =>
    if h : e = f then isTrue (congrArg Except.error h)
    else isFalse fun hc => h (Except.error.inj hc)
  | .error _, .ok _ => isFalse fun hc => Except.noConfusion hc
  | .ok _, .error _ => isFalse fun hc => Except.noConfusion hc
  | .ok x, .ok y =>
    if h : x = y then isTrue (congrArg Except.ok h)
    else isFalse fun hc => h (Except.ok.inj hc)

/-- The environment observed by the path-resolution helpers: whether the
`/.dockerenv` marker file exists, the result of the `user.Current()`
lookup (its home directory), the directories that already exist, the
paths on which `os.MkdirAll` fails, and the permissions recorded for
created directories. -/
structure PathEnv where
  dockerEnvFileExists : Bool
  currentUser : Except GoErr String
  dirs : List String
  mkdirFails : List String
  perms : List (String × Nat)
deriving Repr, DecidableEq

/-- `IsDocker` from the source: true iff `os.Stat("/.dockerenv")`
succeeds. -/
def IsDocker (env : PathEnv) : Bool :=
  env.dockerEnvFileExists

/-- `os.MkdirAll(path, perm)`: a no-op when the directory already
exists; otherwise the filesystem either refuses (paths listed in
`mkdirFails`) or the directory is created with the requested permission
bits. -/
def mkdirAll (env : PathEnv) (path : String) (perm : Nat) : Except GoErr PathEnv :=
  if path ∈ env.dirs then .ok env
  else if path ∈ env.mkdirFails then .error ("mkdir " ++ path ++ ": permission denied")
  else .ok { env with dirs := path :: env.dirs, perms := (path, perm) :: env.perms }

/-- `DefaultUserConfigPath` from the source: validate both names, look
up the current user, build `$HOME/.config/{org}/{app}` with
`filepath.Join`, create it with mode `0700`, and return it. -/
def DefaultUserConfigPath (env : PathEnv) (orgName appName : String) :
    Except GoErr (String × PathEnv) :=
  match ValidateOrgAndAppName orgName appName with
  | some e => .error ("error validating org and app name: " ++ e)
  | none =>
    match env.currentUser with
    | .error e => .error e
    | .ok home =>
      let userConfigPath := goFilepathJoin [home, ".config", orgName, appName]
      match mkdirAll env userConfigPath 0o700 with
      | .error e => .error e
      | .ok env' => .ok (userConfigPath, env')

/-- `DefaultPersistencePath` from the source: `/persist` in a container,
otherwise validate the names and delegate to `DefaultUserConfigPath`. -/
def DefaultPersistencePath (env : PathEnv) (orgName appName : String) :
    Except GoErr (String × PathEnv) :=
  if IsDocker env then .ok ("/persist", env)
  else
    match ValidateOrgAndAppName orgName appName with
    | some e => .error ("error validating org and app name: " ++ e)
    | none => DefaultUserConfigPath env orgName appName

/-- `DefaultConfigPath` from the source: `/config` in a container,
otherwise delegate to `DefaultUserConfigPath`. -/
def DefaultConfigPath (env : PathEnv) (orgName appName : String) :
    Except GoErr (String × PathEnv) :=
  if IsDocker env then .ok ("/config", env)
  else DefaultUserConfigPath env orgName appName

/-- C6: `DefaultConfigPath` returns exactly `/config` (environment
untouched) when the container marker is present; otherwise it delegates
to `DefaultUserConfigPath`, which validates both names and, on success,
returns `$HOME/.config/{org}/{app}` (as built by `filepath.Join`); the
directory exists afterwards, created with owner-only `0700` permissions
when it was absent. -/
theorem defaultConfigPath_spec (env : PathEnv) (orgName appName : String) :
    (IsDocker env = true → DefaultConfigPath env orgName appName = .ok ("/config", env)) ∧
    (IsDocker env = false →
      DefaultConfigPath env orgName appName = DefaultUserConfigPath env orgName appName ∧
      ∀ p env', DefaultUserConfigPath env orgName appName = .ok (p, env') →
        ValidateOrgAndAppName orgName appName = none ∧
        ∃ home, env.currentUser = .ok home ∧
          p = goFilepathJoin [home, ".config", orgName, appName] ∧
          p ∈ env'.dirs ∧
          (p ∉ env.dirs → (p, 0o700) ∈ env'.perms)) := by
  constructor
  · intro h
    simp [DefaultConfigPath, h]
  · intro h
    constructor
    · simp [DefaultConfigPath, h]
    · intro p env' hok
      unfold DefaultUserConfigPath at hok
      cases hval : ValidateOrgAndAppName orgName appName with
      | some e => simp [hval] at hok
      | none =>
        refine ⟨rfl, ?_⟩
        cases hu : env.currentUser with
        | error e => simp [hval, hu] at hok
        | ok home =>
          refine ⟨home, rfl, ?_⟩
          simp only [hval, hu] at hok
          unfold mkdirAll at hok
          by_cases hd : goFilepathJoin [home, ".config", orgName, appName] ∈ env.dirs
          · simp only [hd, if_true, Except.ok.injEq, Prod.mk.injEq] at hok
            obtain ⟨hp, henv⟩ := hok
            subst hp
            subst henv
            exact ⟨rfl, hd, fun hcontra => absurd hd hcontra⟩
          · by_cases hf : goFilepathJoin [home, ".config", orgName, appName] ∈ env.mkdirFails
            · simp [hd, hf] at hok
            · simp only [hd, hf, if_false, if_true, Except.ok.injEq, Prod.mk.injEq] at hok
              obtain ⟨hp, henv⟩ := hok
              subst hp
              subst henv
              exact ⟨rfl, List.mem_cons_self _ _, fun _ => List.mem_cons_self _ _⟩

/-- A non-containerized environment with a known home directory and an
empty filesystem, used to instantiate the path theorems. -/
def pathEnvA : PathEnv :=
  { dockerEnvFileExists := false, currentUser := .ok "/home/tester",
    dirs := [], mkdirFails := [], perms := [] }

/-- The environment `pathEnvA` after `DefaultUserConfigPath` created the
user config directory for `testorg`/`testapp`. -/
def pathEnvA' : PathEnv :=
  { pathEnvA with
    dirs := ["/home/tester/.config/testorg/testapp"],
    perms := [("/home/tester/.config/testorg/testapp", 0o700)] }

theorem defaultConfigPath_spec_witness :
    ValidateOrgAndAppName "testorg" "testapp" = none ∧
    "/home/tester/.config/testorg/testapp" ∈ pathEnvA'.dirs ∧
    ("/home/tester/.config/testorg/testapp", 0o700) ∈ pathEnvA'.perms := by
  have h := ((defaultConfigPath_spec pathEnvA "testorg" "testapp").2 rfl).2
    "/home/tester/.config/testorg/testapp" pathEnvA' (by decide)
  rcases h with ⟨hval, home, hu, hp, hdirs, hperm⟩
  exact ⟨hval, hdirs, hperm (by decide)⟩

/-- An environment with the `/.dockerenv` marker present, used to
instantiate the container branches. -/
def pathEnvDocker : PathEnv :=
  { dockerEnvFileExists := true, currentUser := .error "user lookup failed",
    dirs := [], mkdirFails := [], perms := [] }

/-- C10: with the container marker present, `DefaultConfigPath` and
`DefaultPersistencePath` return the fixed paths `/config` and `/persist`
for every `(org, app)` pair without validating the names, so they cannot
fail in a container; without the marker both validate the names and
fail exactly with the wrapped validation error whenever validation
rejects the names. -/
theorem containerPaths_skip_validation (env : PathEnv) (orgName appName : String) :
    (IsDocker env = true →
      DefaultConfigPath env orgName appName = .ok ("/config", env) ∧
      DefaultPersistencePath env orgName appName = .ok ("/persist", env)) ∧
    (IsDocker env = false → ∀ e, ValidateOrgAndAppName orgName appName = some e →
      DefaultConfigPath env orgName appName =
        .error ("error validating org and app name: " ++ e) ∧
      DefaultPersistencePath env orgName appName =
        .error ("error validating org and app name: " ++ e)) := by
  constructor
  · intro h
    constructor
    · simp [DefaultConfigPath, h]
    · simp [DefaultPersistencePath, h]
  · intro h e hval
    constructor
    · simp [DefaultConfigPath, DefaultUserConfigPath, h, hval]
    · simp [DefaultPersistencePath, h, hval]

theorem containerPaths_skip_validation_witness :
    DefaultConfigPath pathEnvDocker "bad name" "also/bad" = .ok ("/config", pathEnvDocker) ∧
    DefaultPersistencePath pathEnvDocker "bad name" "also/bad" = .ok ("/persist", pathEnvDocker) ∧
    DefaultConfigPath pathEnvA "bad name" "ok-app" =
      .error "error validating org and app name: invalid orgName: name must not contain spaces" := by
  refine ⟨?_, ?_, ?_⟩
  · exact ((containerPaths_skip_validation pathEnvDocker "bad name" "also/bad").1 rfl).1
  · exact ((containerPaths_skip_validation pathEnvDocker "bad name" "also/bad").1 rfl).2
  · exact ((containerPaths_skip_validation pathEnvA "bad name" "ok-app").2 rfl
      "invalid orgName: name must not contain spaces" (by decide)).1

/-! ## Commands and flags (command.go) -/

/-- A parsed command-line flag: name, shorthand, default value and the
value supplied on the command line, if any.  `pflag`'s
`Flag.Value.String()` returns the supplied value when the flag was set
on the command line and the default value otherwise. -/
structure Flag where
  name : String
  shorthand : String
  defValue : String
  value : Option String
deriving Repr, DecidableEq

/-- `pflag.Flag.Value.String()`. -/
def flagValueString (f : Flag) : String :=
  f.value.getD f.defValue

/-- A cobra command: its `Use` name, its flag set and its parent. -/
inductive Cmd where
  | mk (use : String) (flags : List Flag) (parent : Option Cmd)

def Cmd.use : Cmd → String
  | .mk u _ _ => u

def Cmd.flags : Cmd → List Flag
  | .mk _ fs _ => fs

def Cmd.parent : Cmd → Option Cmd
  | .mk _ _ p => p

/-- `commandParts` from the source: the command `Use` names from root to
leaf, gathered by recursing into the parent first. -/
def commandParts : Cmd → List String
  | .mk use _ none => [use]
  | .mk use _ (some p) => commandParts p ++ [use]

/-- The config-file base name `InitConfig` derives:
`fmt.Sprintf("%v\n", strings.Join(commandParts(cmd), "-"))`.  Note the
trailing newline contributed by the format string. -/
def fullCommandName (cmd : Cmd) : String :=
  String.intercalate "-" (commandParts cmd) ++ "\n"

/-- `WithConfigFlag` from command.go: registers a `--config`/`-c` string
flag with the given default on the command's flag set. -/
def WithConfigFlag (defaultConfigFile : String) (cmd : Cmd) : Cmd :=
  .mk cmd.use (cmd.flags ++ [⟨"config", "c", defaultConfigFile, none⟩]) cmd.parent

/-- `cobra.Command.Flag(name)`: flag lookup by name. -/
def Cmd.flag (cmd : Cmd) (name : String) : Option Flag :=
  cmd.flags.find? fun f => f.name = name

/-- C3 (evaluation at the failing input): for root command `app` with
subcommand `serve`, the parts are `["app", "serve"]` but the base name
handed to the configuration library is `"app-serve\n"` — the
hyphen-joined command path with a trailing newline appended by the
`"%v\n"` format verb — not the claimed exact `"app-serve"`. -/
theorem fullCommandName_appends_newline :
    commandParts (.mk "serve" [] (some (.mk "app" [] none))) = ["app", "serve"] ∧
    fullCommandName (.mk "serve" [] (some (.mk "app" [] none))) = "app-serve\n" ∧
    "app-serve\n" ≠ "app-serve" := by
  refine ⟨rfl, rfl, by decide⟩

/-! ## InitConfig (config.go) -/

/-- The logging section of the common configuration (logging.Config). -/
structure LogConfig where
  level : String
  file : String
  maxSize : Int
  maxAge : Int
  maxBackups : Int
  localTime : Bool
  compress : Bool
  mode : String
deriving Repr, DecidableEq

/-- `CommonConfig` from the source: the logging configuration, stored
under the `log` key. -/
structure CommonConfig where
  logging : LogConfig
deriving Repr, DecidableEq

/-- Outcome of `viper.ReadInConfig`: success, the dedicated
file-not-found error, or any other read/parse error. -/
inductive ReadResult where
  | ok
  | notFound
  | otherError (e : GoErr)
deriving Repr, DecidableEq

/-- The outcomes of the viper/filesystem calls `InitConfig` makes — the
external state its control flow branches on. -/
structure InitEnv where
  bindErr : Option GoErr
  homedir : Except GoErr String
  readResult : ReadResult
  commonResult : Except GoErr CommonConfig
  callerErr : Option GoErr
deriving Repr, DecidableEq

/-- Where `InitConfig` pointed the configuration library for the config
file: an explicit file, or the standard search paths with a derived
config name. -/
inductive ConfigSource where
  | explicitFile (path : String)
  | searchPaths (system home configName : String)
deriving Repr, DecidableEq

/-- Everything observable about one `InitConfig` run: the returned
`(*CommonConfig, error)` pair, the configured file source (`none` when
initialization aborted before the source was configured), whether the
config watcher was started, and whether the logger was configured. -/
structure InitOutcome where
  ret : Option CommonConfig × Option GoErr
  configSource : Option ConfigSource
  watchStarted : Bool
  loggerConfigured : Bool
deriving Repr, DecidableEq

/-- `InitConfig` from the source, step for step: validate the names
(wrap and abort on failure); bind the command's flags (abort on
failure); choose the explicit file when `cfgFile` is non-empty,
otherwise the search paths `/etc/{org}/{app}` and
`$HOME/.config/{org}/{app}` (home path falling back to `/config` when
the home lookup fails) with the command-derived config name; read the
config — the read error is not returned, a successful read merely
starts the watcher; unmarshal into `CommonConfig` (abort with nil
pointer on failure); configure the logger; unmarshal the caller struct,
returning its error alongside the `CommonConfig`. -/
def InitConfig (env : InitEnv) (orgName appName : String) (cmd : Cmd)
    (cfgFile : String) : InitOutcome :=
  match ValidateOrgAndAppName orgName appName with
  | some e =>
    { ret := (none, some ("error validating org and app name: " ++ e)),
      configSource := none, watchStarted := false, loggerConfigured := false }
  | none =>
  match env.bindErr with
  | some e =>
    { ret := (none, some e),
      configSource := none, watchStarted := false, loggerConfigured := false }
  | none =>
  let source :=
    if cfgFile ≠ "" then ConfigSource.explicitFile cfgFile
    else
      let systemConfigPath := goFilepathJoin ["/etc", orgName, appName]
      let homeConfigPath :=
        match env.homedir with
        | .error _ => "/config"
        | .ok home => goFilepathJoin [home, ".config", orgName, appName]
      ConfigSource.searchPaths systemConfigPath homeConfigPath (fullCommandName cmd)
  let watch := decide (env.readResult = ReadResult.ok)
  match env.commonResult with
  | .error e =>
    { ret := (none, some e), configSource := some source,
      watchStarted := watch, loggerConfigured := false }
  | .ok c =>
  match env.callerErr with
  | some e =>
    { ret := (some c, some e), configSource := some source,
      watchStarted := watch, loggerConfigured := true }
  | none =>
    { ret := (some c, none), configSource := some source,
      watchStarted := watch, loggerConfigured := true }

/-- A populated common configuration used for concrete runs. -/
def commonA : CommonConfig := ⟨⟨"info", "", 0, 0, 0, false, false, ""⟩⟩

/-- A leaf command named `testapp` with no flags and no parent. -/
def cmdA : Cmd := .mk "testapp" [] none

/-- An `InitConfig` environment in which reading the config file fails
with a YAML parse error while everything else succeeds. -/
def initEnvParseError : InitEnv :=
  { bindErr := none, homedir := .ok "/home/tester",
    readResult := .otherError "While parsing config: yaml: did not find expected key",
    commonResult := .ok commonA, callerErr := none }

/-- C2 (counterexample): a YAML parse error from the config read does
not abort `InitConfig`: with both unmarshals succeeding it returns the
populated `CommonConfig` and a nil error, contradicting the claim that
every read error other than file-not-found is fatal. -/
theorem initConfig_parse_error_not_fatal :
    (InitConfig initEnvParseError "testorg" "testapp" cmdA "/tmp/app.yaml").ret
      = (some commonA, none) := by
  decide

/-- C2 (amended): a "file not found" read outcome is non-fatal — and so
is every other read error: the pair `InitConfig` returns never depends
on the read outcome; once validation and flag binding succeed, the only
effect of the read outcome is that the config watcher starts exactly on
a successful read. -/
theorem initConfig_read_errors_nonfatal (env : InitEnv) (r r' : ReadResult)
    (orgName appName : String) (cmd : Cmd) (cfgFile : String) :
    (InitConfig { env with readResult := r } orgName appName cmd cfgFile).ret =
      (InitConfig { env with readResult := r' } orgName appName cmd cfgFile).ret ∧
    (ValidateOrgAndAppName orgName appName = none → env.bindErr = none →
      (InitConfig { env with readResult := r } orgName appName cmd cfgFile).watchStarted
        = decide (r = ReadResult.ok)) := by
  constructor
  · unfold InitConfig
    cases hv : ValidateOrgAndAppName orgName appName <;>
      cases hb : env.bindErr <;>
        cases hc : env.commonResult <;>
          cases hce : env.callerErr <;>
            simp [hv, hb, hc, hce]
  · intro hv hb
    unfold InitConfig
    cases hc : env.commonResult <;>
      cases hce : env.callerErr <;>
        simp [hv, hb, hc, hce]

theorem initConfig_read_errors_nonfatal_witness :
    (InitConfig { initEnvParseError with readResult := .otherError "permission denied" }
        "testorg" "testapp" cmdA "/tmp/app.yaml").ret =
      (InitConfig { initEnvParseError with readResult := .notFound }
        "testorg" "testapp" cmdA "/tmp/app.yaml").ret ∧
    (InitConfig { initEnvParseError with readResult := .otherError "permission denied" }
        "testorg" "testapp" cmdA "/tmp/app.yaml").watchStarted
      = decide ((ReadResult.otherError "permission denied") = ReadResult.ok) := by
  have h := initConfig_read_errors_nonfatal initEnvParseError
    (.otherError "permission denied") .notFound "testorg" "testapp" cmdA "/tmp/app.yaml"
  exact ⟨h.1, h.2 (by decide) rfl⟩

/-- C4: once name validation and flag binding succeed, a failing
caller-struct unmarshal makes `InitConfig` return the populated non-nil
`CommonConfig` together with the decode error, while a failing
`CommonConfig` unmarshal makes it return a nil pointer with the
error. -/
theorem initConfig_returns_common_with_decode_error (env : InitEnv)
    (orgName appName : String) (cmd : Cmd) (cfgFile : String)
    (hval : ValidateOrgAndAppName orgName appName = none)
    (hbind : env.bindErr = none) :
    (∀ c e, env.commonResult = .ok c → env.callerErr = some e →
      (InitConfig env orgName appName cmd cfgFile).ret = (some c, some e)) ∧
    (∀ e, env.commonResult = .error e →
      (InitConfig env orgName appName cmd cfgFile).ret = (none, some e)) := by
  unfold InitConfig
  constructor
  · intro c e hc he
    simp [hval, hbind, hc, he]
  · intro e hc
    simp [hval, hbind, hc]

/-- Environment whose caller-struct unmarshal fails. -/
def initEnvDecodeError : InitEnv :=
  { bindErr := none, homedir := .ok "/home/tester", readResult := .ok,
    commonResult := .ok commonA, callerErr := some "1 error(s) decoding" }

/-- Environment whose `CommonConfig` unmarshal fails. -/
def initEnvCommonError : InitEnv :=
  { bindErr := none, homedir := .ok "/home/tester", readResult := .ok,
    commonResult := .error "cannot unmarshal log section", callerErr := none }

theorem initConfig_returns_common_with_decode_error_witness :
    (InitConfig initEnvDecodeError "testorg" "testapp" cmdA "").ret
      = (some commonA, some "1 error(s) decoding") ∧
    (InitConfig initEnvCommonError "testorg" "testapp" cmdA "").ret
      = (none, some "cannot unmarshal log section") := by
  refine ⟨?_, ?_⟩
  · exact (initConfig_returns_common_with_decode_error initEnvDecodeError
      "testorg" "testapp" cmdA "" (by decide) rfl).1 commonA "1 error(s) decoding" rfl rfl
  · exact (initConfig_returns_common_with_decode_error initEnvCommonError
      "testorg" "testapp" cmdA "" (by decide) rfl).2 "cannot unmarshal log section" rfl

/-- The config-file path the run wrapper returned by
`CobraRunEWithConfig` reads before calling `InitConfig`: the string
value of the `config` flag, or `""` when the command has no such
flag. -/
def cobraConfigFile (cmd : Cmd) : String :=
  match cmd.flag "config" with
  | some fl => flagValueString fl
  | none => ""

/-- The run wrapper produced by `CobraRunEWithConfig`: reads the
`config` flag value and calls `InitConfig` with it. -/
def CobraRunEWithConfig (env : InitEnv) (orgName appName : String) (cmd : Cmd) : InitOutcome :=
  InitConfig env orgName appName cmd (cobraConfigFile cmd)

/-- C9: for a command built with `WithConfigFlag f` where `f` is
non-empty and the user did not supply `--config`, the wrapper passes the
flag's default `f` — a non-empty path — to `InitConfig`, so the
standard `/etc` and `$HOME` search-path branch is never taken. -/
theorem withConfigFlag_disables_search (f : String) (cmd : Cmd)
    (hf : f ≠ "")
    (hnoconfig : ∀ fl ∈ cmd.flags, fl.name ≠ "config") :
    cobraConfigFile (WithConfigFlag f cmd) = f ∧
    ∀ env orgName appName s h n,
      (CobraRunEWithConfig env orgName appName (WithConfigFlag f cmd)).configSource ≠
        some (ConfigSource.searchPaths s h n) := by
  have hfile : cobraConfigFile (WithConfigFlag f cmd) = f := by
    cases cmd with
    | mk use fs parent =>
      unfold cobraConfigFile Cmd.flag WithConfigFlag
      simp only [Cmd.flags]
      rw [List.find?_append]
      have hnone : List.find? (fun fl => decide (fl.name = "config")) fs = none :=
        List.find?_eq_none.mpr fun fl hfl => by
          simpa using hnoconfig fl hfl
      simp [hnone, flagValueString]
  refine ⟨hfile, ?_⟩
  intro env orgName appName s h n
  unfold CobraRunEWithConfig
  rw [hfile]
  unfold InitConfig
  cases hv : ValidateOrgAndAppName orgName appName <;>
    cases hb : env.bindErr <;>
      cases hc : env.commonResult <;>
        cases hce : env.callerErr <;>
          simp [hv, hb, hc, hce, hf]

theorem withConfigFlag_disables_search_witness :
    cobraConfigFile (WithConfigFlag "config.yaml" cmdA) = "config.yaml" ∧
    (CobraRunEWithConfig initEnvDecodeError "testorg" "testapp"
        (WithConfigFlag "config.yaml" cmdA)).configSource ≠
      some (ConfigSource.searchPaths "/etc/testorg/testapp"
        "/home/tester/.config/testorg/testapp" "testapp\n") := by
  have h := withConfigFlag_disables_search "config.yaml" cmdA (by decide)
    (by intro fl hfl; simp [cmdA, Cmd.flags] at hfl)
  exact ⟨h.1, h.2 initEnvDecodeError "testorg" "testapp" _ _ _⟩

/-! ## The layered configuration store

Modelled from the spec: the Merged Configuration Store is maintained by
the third-party configuration library (viper), whose code is not in
src; spec §3 describes it as a layered key-value mapping with
precedence file < environment < bound flags, where a read of a key
returns the value from the highest-precedence layer that defines it and
flag bindings win regardless of registration order. -/

/-- Modelled from the spec: the three layers of the merged store the
precedence claim concerns.  Within a layer the most recent registration
is found first. -/
structure ViperStore where
  flagLayer : List (String × String)
  envLayer : List (String × String)
  fileLayer : List (String × String)
deriving Repr, DecidableEq

/-- The store before any source is registered. -/
def emptyStore : ViperStore := ⟨[], [], []⟩

/-- Lookup of a key within one layer. -/
def layerFind (layer : List (String × String)) (k : String) : Option String :=
  (layer.find? fun kv => kv.1 = k).map Prod.snd

/-- Modelled from the spec: a registration event adds one binding to one
layer of the store — a bound command-line flag, an environment
variable, or a config-file key. -/
inductive RegEvent where
  | bindFlag (k v : String)
  | setEnv (k v : String)
  | setFileKey (k v : String)
deriving Repr, DecidableEq

/-- Apply one registration event to the store. -/
def register (s : ViperStore) : RegEvent → ViperStore
  | .bindFlag k v => { s with flagLayer := (k, v) :: s.flagLayer }
  | .setEnv k v => { s with envLayer := (k, v) :: s.envLayer }
  | .setFileKey k v => { s with fileLayer := (k, v) :: s.fileLayer }

/-- Register a sequence of events, in order. -/
def registerAll (s : ViperStore) (evs : List RegEvent) : ViperStore :=
  evs.foldl register s

/-- Modelled from the spec: a read of a key returns the value from the
highest-precedence layer defining it — bound flags first, then
environment, then config file.  Unmarshalling reads every target key
through this lookup. -/
def viperFind (s : ViperStore) (k : String) : Option String :=
  match layerFind s.flagLayer k with
  | some v => some v
  | none =>
    match layerFind s.envLayer k with
    | some v => some v
    | none => layerFind s.fileLayer k

/-- The flag-layer values registered for key `k`, in registration
order. -/
def flagValuesFor (evs : List RegEvent) (k : String) : List String :=
  evs.filterMap fun ev =>
    match ev with
    | .bindFlag q v => if q = k then some v else none
    | _ => none

/-- The environment-layer values registered for key `k`, in registration
order. -/
def envValuesFor (evs : List RegEvent) (k : String) : List String :=
  evs.filterMap fun ev =>
    match ev with
    | .setEnv q v => if q = k then some v else none
    | _ => none

/-- The file-layer values registered for key `k`, in registration
order. -/
def fileValuesFor (evs : List RegEvent) (k : String) : List String :=
  evs.filterMap fun ev =>
    match ev with
    | .setFileKey q v => if q = k then some v else none
    | _ => none

lemma layerFind_cons (q v : String) (l : List (String × String)) (k : String) :
    layerFind ((q, v) :: l) k = if q = k then some v else layerFind l k := by
  by_cases h : q = k <;> simp [layerFind, List.find?_cons, h]

lemma registerAll_cons (s : ViperStore) (ev : RegEvent) (evs : List RegEvent) :
    registerAll s (ev :: evs) = registerAll (register s ev) evs := rfl

lemma flagValuesFor_cons (ev : RegEvent) (evs : List RegEvent) (k : String) :
    flagValuesFor (ev :: evs) k =
      (match ev with
        | .bindFlag q v => if q = k then some v else none
        | _ => none).toList ++ flagValuesFor evs k := by
  cases ev with
  | bindFlag q v => by_cases h : q = k <;> simp [flagValuesFor, List.filterMap_cons, h]
  | setEnv q v => simp [flagValuesFor, List.filterMap_cons]
  | setFileKey q v => simp [flagValuesFor, List.filterMap_cons]

lemma envValuesFor_cons (ev : RegEvent) (evs : List RegEvent) (k : String) :
    envValuesFor (ev :: evs) k =
      (match ev with
        | .setEnv q v => if q = k then some v else none
        | _ => none).toList ++ envValuesFor evs k := by
  cases ev with
  | setEnv q v => by_cases h : q = k <;> simp [envValuesFor, List.filterMap_cons, h]
  | bindFlag q v => simp [envValuesFor, List.filterMap_cons]
  | setFileKey q v => simp [envValuesFor, List.filterMap_cons]

lemma fileValuesFor_cons (ev : RegEvent) (evs : List RegEvent) (k : String) :
    fileValuesFor (ev :: evs) k =
      (match ev with
        | .setFileKey q v => if q = k then some v else none
        | _ => none).toList ++ fileValuesFor evs k := by
  cases ev with
  | setFileKey q v => by_cases h : q = k <;> simp [fileValuesFor, List.filterMap_cons, h]
  | bindFlag q v => simp [fileValuesFor, List.filterMap_cons]
  | setEnv q v => simp [fileValuesFor, List.filterMap_cons]

lemma flagFind_registerAll (evs : List RegEvent) (s : ViperStore) (k : String) :
    layerFind (registerAll s evs).flagLayer k =
      (flagValuesFor evs k).foldl (fun _ v => some v) (layerFind s.flagLayer k) := by
  induction evs generalizing s with
  | nil => rfl
  | cons ev rest ih =>
    rw [registerAll_cons, ih, flagValuesFor_cons]
    cases ev with
    | bindFlag q v =>
      by_cases h : q = k
      · subst h
        simp [register, layerFind_cons]
      · simp [register, layerFind_cons, h]
    | setEnv q v => simp [register]
    | setFileKey q v => simp [register]

lemma envFind_registerAll (evs : List RegEvent) (s : ViperStore) (k : String) :
    layerFind (registerAll s evs).envLayer k =
      (envValuesFor evs k).foldl (fun _ v => some v) (layerFind s.envLayer k) := by
  induction evs generalizing s with
  | nil => rfl
  | cons ev rest ih =>
    rw [registerAll_cons, ih, envValuesFor_cons]
    cases ev with
    | setEnv q v =>
      by_cases h : q = k
      · subst h
        simp [register, layerFind_cons]
      · simp [register, layerFind_cons, h]
    | bindFlag q v => simp [register]
    | setFileKey q v => simp [register]

lemma fileFind_registerAll (evs : List RegEvent) (s : ViperStore) (k : String) :
    layerFind (registerAll s evs).fileLayer k =
      (fileValuesFor evs k).foldl (fun _ v => some v) (layerFind s.fileLayer k) := by
  induction evs generalizing s with
  | nil => rfl
  | cons ev rest ih =>
    rw [registerAll_cons, ih, fileValuesFor_cons]
    cases ev with
    | setFileKey q v =>
      by_cases h : q = k
      · subst h
        simp [register, layerFind_cons]
      · simp [register, layerFind_cons, h]
    | bindFlag q v => simp [register]
    | setEnv q v => simp [register]

/-- C1: for every sequence of source registrations — in any order — a
key with a (single) flag binding reads back the flag value; with no flag
binding it reads back the environment value; with neither flag nor
environment binding it reads back the file value. -/
theorem viper_precedence (evs : List RegEvent) (k : String) :
    (∀ v, flagValuesFor evs k = [v] →
      viperFind (registerAll emptyStore evs) k = some v) ∧
    (flagValuesFor evs k = [] → ∀ v, envValuesFor evs k = [v] →
      viperFind (registerAll emptyStore evs) k = some v) ∧
    (flagValuesFor evs k = [] → envValuesFor evs k = [] →
      ∀ v, fileValuesFor evs k = [v] →
        viperFind (registerAll emptyStore evs) k = some v) := by
  refine ⟨?_, ?_, ?_⟩
  · intro v hv
    have hf : layerFind (registerAll emptyStore evs).flagLayer k = some v := by
      rw [flagFind_registerAll, hv]
      rfl
    unfold viperFind
    rw [hf]
  · intro hnf v hv
    have hf : layerFind (registerAll emptyStore evs).flagLayer k = none := by
      rw [flagFind_registerAll, hnf]
      rfl
    have he : layerFind (registerAll emptyStore evs).envLayer k = some v := by
      rw [envFind_registerAll, hv]
      rfl
    unfold viperFind
    rw [hf, he]
  · intro hnf hne v hv
    have hf : layerFind (registerAll emptyStore evs).flagLayer k = none := by
      rw [flagFind_registerAll, hnf]
      rfl
    have he : layerFind (registerAll emptyStore evs).envLayer k = none := by
      rw [envFind_registerAll, hne]
      rfl
    have hfl : layerFind (registerAll emptyStore evs).fileLayer k = some v := by
      rw [fileFind_registerAll, hv]
      rfl
    unfold viperFind
    rw [hf, he, hfl]

theorem viper_precedence_witness :
    viperFind (registerAll emptyStore
      [RegEvent.setFileKey "log.level" "file-debug",
       RegEvent.bindFlag "log.level" "flag-trace",
       RegEvent.setEnv "log.level" "env-warn"]) "log.level" = some "flag-trace" ∧
    viperFind (registerAll emptyStore
      [RegEvent.setFileKey "log.level" "file-debug",
       RegEvent.setEnv "log.level" "env-warn"]) "log.level" = some "env-warn" ∧
    viperFind (registerAll emptyStore
      [RegEvent.setFileKey "log.level" "file-debug"]) "log.level" = some "file-debug" := by
  refine ⟨?_, ?_, ?_⟩
  · exact (viper_precedence
      [RegEvent.setFileKey "log.level" "file-debug",
       RegEvent.bindFlag "log.level" "flag-trace",
       RegEvent.setEnv "log.level" "env-warn"] "log.level").1 "flag-trace" (by decide)
  · exact (viper_precedence
      [RegEvent.setFileKey "log.level" "file-debug",
       RegEvent.setEnv "log.level" "env-warn"] "log.level").2.1 (by decide)
      "env-warn" (by decide)
  · exact (viper_precedence
      [RegEvent.setFileKey "log.level" "file-debug"] "log.level").2.2 (by decide)
      (by decide) "file-debug" (by decide)

/-! ## Decode hooks (`UnmarshalConfig`, config.go)

The hook chain composition is from the source; the individual hooks are
third-party (`mapstructure`, `dioad/util`) and are modelled from the
spec's descriptions of them, with the reference parsers implemented
after the semantics of Go's `time.ParseDuration`, `net.ParseIP` and
`net.ParseCIDR`. -/

/-- Numeric value of a sequence of decimal digit runes. -/
def natFromDigits (cs : List Char) : Nat :=
  cs.foldl (fun a c => a * 10 + (c.toNat - 48)) 0

/-- Nanoseconds-per-unit for a duration unit name (`ns`, `us`/micro
sign/mu `s`, `ms`, `s`, `m`, `h`). -/
def unitScale : List Char → Option Nat
  | ['n', 's'] => some 1
  | ['u', 's'] => some 1000
  | [Char.ofNat 0xB5, 's'] => some 1000
  | [Char.ofNat 0x3BC, 's'] => some 1000
  | ['m', 's'] => some 1000000
  | ['s'] => some 1000000000
  | ['m'] => some 60000000000
  | ['h'] => some 3600000000000
  | _ => none

/-- Consume the unit name of one duration component and convert the
component to nanoseconds; fractional digits contribute
`frac * unit / 10 ^ digits`, truncated as Go truncates. -/
def parseDurUnit (intDigits fracDigits rest : List Char) : Option (Nat × List Char) :=
  let us := rest.span fun c => !(c.isDigit || c == '.')
  if us.1 = [] then none
  else
    match unitScale us.1 with
    | none => none
    | some u =>
      some (natFromDigits intDigits * u +
        natFromDigits fracDigits * u / 10 ^ fracDigits.length, us.2)

/-- Parse one `[int][.fraction]unit` duration component. -/
def parseDurComponent (cs : List Char) : Option (Nat × List Char) :=
  let s1 := cs.span Char.isDigit
  match s1.2 with
  | '.' :: r =>
    let s2 := r.span Char.isDigit
    if s1.1 = [] ∧ s2.1 = [] then none
    else parseDurUnit s1.1 s2.1 s2.2
  | _ =>
    if s1.1 = [] then none
    else parseDurUnit s1.1 [] s1.2

/-- Parse a nonempty sequence of duration components (fuelled by the
input length; every component consumes at least its unit rune). -/
def parseDurAll (cs : List Char) : Nat → Option Nat
  | 0 => none
  | fuel + 1 =>
    match parseDurComponent cs with
    | none => none
    | some (n, rest) =>
      if rest = [] then some n
      else
        match parseDurAll rest fuel with
        | none => none
        | some m => some (n + m)

/-- Modelled from the spec: Go's `time.ParseDuration` — optional sign,
then duration components; `"0"` alone is allowed; result in
nanoseconds.  (Int64 overflow checking is elided.) -/
def goParseDuration (str : String) : Option Int :=
  let cs := str.toList
  let signed : Bool × List Char :=
    match cs with
    | '-' :: r => (true, r)
    | '+' :: r => (false, r)
    | _ => (false, cs)
  if signed.2 = ['0'] then some 0
  else if signed.2 = [] then none
  else
    (parseDurAll signed.2 (signed.2.length + 1)).map fun n =>
      if signed.1 then -(n : Int) else (n : Int)

/-- One dotted-quad field: one to three decimal digits, value at most
255, leading zeros rejected. -/
def parseIPv4Field (cs : List Char) : Option Nat :=
  match cs with
  | [] => none
  | _ =>
    if cs.all Char.isDigit ∧ cs.length ≤ 3 ∧ (cs.head? ≠ some '0' ∨ cs.length = 1) then
      let n := natFromDigits cs
      if n ≤ 255 then some n else none
    else none

/-- Modelled from the spec: Go's `net.ParseIP` on dotted-quad IPv4
literals, as the four byte values. -/
def goParseIPv4 (str : String) : Option (Nat × Nat × Nat × Nat) :=
  match (splitOnChar '.' str.toList).map parseIPv4Field with
  | [some a, some b, some c, some d] => some (a, b, c, d)
  | _ => none

/-- Keep the top `bits` bits of a byte (0 to 8). -/
def maskByte (b bits : Nat) : Nat :=
  b / 2 ^ (8 - bits) * 2 ^ (8 - bits)

/-- The network address of an IPv4 address under a prefix length:
each byte masked to the bits the prefix covers. -/
def networkOf (ip : Nat × Nat × Nat × Nat) (pfx : Nat) : Nat × Nat × Nat × Nat :=
  (maskByte ip.1 (min 8 pfx), maskByte ip.2.1 (min 8 (pfx - 8)),
   maskByte ip.2.2.1 (min 8 (pfx - 16)), maskByte ip.2.2.2 (min 8 (pfx - 24)))

/-- Modelled from the spec: Go's `net.ParseCIDR`, returning the network
block (masked network address and prefix length) that its second return
value carries. -/
def goParseCIDR (str : String) : Option ((Nat × Nat × Nat × Nat) × Nat) :=
  match splitOnChar '/' str.toList with
  | [ipPart, pfxPart] =>
    match goParseIPv4 (String.mk ipPart) with
    | none => none
    | some ip =>
      if pfxPart ≠ [] ∧ pfxPart.all Char.isDigit then
        let pfx := natFromDigits pfxPart
        if pfx ≤ 32 then some (networkOf ip pfx, pfx) else none
      else none
  | _ => none

/-- The field types the decode hooks inspect. -/
inductive FieldType where
  | stringT
  | maskedString
  | duration
  | ip
  | ipNet
deriving Repr, DecidableEq

/-- A configuration value flowing through the hook chain. -/
inductive CfgValue where
  | str (s : String)
  | masked (s : String)
  | dur (ns : Int)
  | ipV (a : Nat × Nat × Nat × Nat)
  | ipNetV (net : (Nat × Nat × Nat × Nat) × Nat)
deriving Repr, DecidableEq

/-- Modelled from the spec: `util.MaskedStringDecodeHook` wraps string
data in the self-redacting masked-string type when the target field has
that type; other targets pass through unchanged. -/
def maskedStringDecodeHook (t : FieldType) (v : CfgValue) : Except GoErr CfgValue :=
  match t, v with
  | .maskedString, .str s => .ok (.masked s)
  | _, _ => .ok v

/-- Modelled from the spec: `mapstructure.StringToTimeDurationHookFunc`
converts string data through the duration parser when the target field
is a duration; other targets pass through unchanged. -/
def stringToTimeDurationHook (t : FieldType) (v : CfgValue) : Except GoErr CfgValue :=
  match t, v with
  | .duration, .str s =>
    match goParseDuration s with
    | some d => .ok (.dur d)
    | none => .error ("time: invalid duration " ++ s)
  | _, _ => .ok v

/-- Modelled from the spec: `mapstructure.StringToIPHookFunc` converts
string data through the IP parser when the target field is an IP
address. -/
def stringToIPHook (t : FieldType) (v : CfgValue) : Except GoErr CfgValue :=
  match t, v with
  | .ip, .str s =>
    match goParseIPv4 s with
    | some a => .ok (.ipV a)
    | none => .error ("failed parsing ip " ++ s)
  | _, _ => .ok v

/-- Modelled from the spec: `mapstructure.StringToIPNetHookFunc`
converts string data through the CIDR parser when the target field is a
network block. -/
def stringToIPNetHook (t : FieldType) (v : CfgValue) : Except GoErr CfgValue :=
  match t, v with
  | .ipNet, .str s =>
    match goParseCIDR s with
    | some net => .ok (.ipNetV net)
    | none => .error ("failed parsing ip net " ++ s)
  | _, _ => .ok v

/-- `UnmarshalConfig`'s composed decode hook, in source order:
masked-string, duration, IP, IPNet.  `ComposeDecodeHookFunc` applies
each hook in sequence, threading the (possibly transformed) value and
stopping at the first error. -/
def unmarshalConfigDecodeValue (t : FieldType) (v : CfgValue) : Except GoErr CfgValue :=
  match maskedStringDecodeHook t v with
  | .error e => .error e
  | .ok v1 =>
    match stringToTimeDurationHook t v1 with
    | .error e => .error e
    | .ok v2 =>
      match stringToIPHook t v2 with
      | .error e => .error e
      | .ok v3 => stringToIPNetHook t v3

/-- C7: through `UnmarshalConfig`'s hook chain, `"60s"` into a duration
field decodes to exactly 60 seconds (60 billion nanoseconds),
`"1.2.3.4"` into an IP field decodes to exactly the value of the
reference IP parser, and `"2.3.4.5/24"` into a CIDR field decodes to
exactly the network block the reference CIDR parser returns — network
address `2.3.4.0`, prefix length 24. -/
theorem unmarshalConfig_hooks_roundtrip :
    unmarshalConfigDecodeValue .duration (.str "60s") = .ok (.dur 60000000000) ∧
    goParseIPv4 "1.2.3.4" = some (1, 2, 3, 4) ∧
    unmarshalConfigDecodeValue .ip (.str "1.2.3.4") = .ok (.ipV (1, 2, 3, 4)) ∧
    goParseCIDR "2.3.4.5/24" = some ((2, 3, 4, 0), 24) ∧
    unmarshalConfigDecodeValue .ipNet (.str "2.3.4.5/24") = .ok (.ipNetV ((2, 3, 4, 0), 24)) := by
  refine ⟨?_, ?_, ?_, ?_, ?_⟩ <;> decide

/-! ## Logging level configuration (logging/logging.go) -/

/-- Modelled from the spec: the seven log levels the logging library
recognises. -/
inductive LogLevel where
  | trace
  | debug
  | info
  | warn
  | errorL
  | fatal
  | panicL
deriving Repr, DecidableEq

/-- Modelled from the spec: `zerolog.ParseLevel` recognises exactly the
level names trace, debug, info, warn, error, fatal, panic. -/
def parseLevel (s : String) : Option LogLevel :=
  if s = "trace" then some .trace
  else if s = "debug" then some .debug
  else if s = "info" then some .info
  else if s = "warn" then some .warn
  else if s = "error" then some .errorL
  else if s = "fatal" then some .fatal
  else if s = "panic" then some .panicL
  else none

/-- `ConfigureLogLevel` from logging.go, as the resulting global level:
the default when the level string is empty, the default again when
parsing fails (a warning is logged, no error is returned or raised),
otherwise the parsed level. -/
def ConfigureLogLevel (levelString : String) (defaultLogLevel : LogLevel) : LogLevel :=
  if levelString = "" then defaultLogLevel
  else
    match parseLevel levelString with
    | none => defaultLogLevel
    | some l => l

/-- C8: for every default level, an empty level string configures the
default level; a non-empty unrecognised string (e.g.
`"notavalidlevel"`) also configures the default level, without
returning or raising an error (the function is total and
level-valued); a recognised level name configures the parsed level. -/
theorem configureLogLevel_spec (d : LogLevel) :
    ConfigureLogLevel "" d = d ∧
    (∀ s, s ≠ "" → parseLevel s = none → ConfigureLogLevel s d = d) ∧
    ConfigureLogLevel "notavalidlevel" d = d ∧
    (∀ s l, parseLevel s = some l → ConfigureLogLevel s d = l) := by
  refine ⟨rfl, ?_, rfl, ?_⟩
  · intro s hs hp
    simp [ConfigureLogLevel, hs, hp]
  · intro s l hp
    have hs : s ≠ "" := by
      intro h
      rw [h] at hp
      exact Option.noConfusion hp
    simp [ConfigureLogLevel, hs, hp]

theorem configureLogLevel_spec_witness :
    ConfigureLogLevel "" LogLevel.info = LogLevel.info ∧
    ConfigureLogLevel "notavalidlevel" LogLevel.info = LogLevel.info ∧
    ConfigureLogLevel "bogus" LogLevel.warn = LogLevel.warn ∧
    ConfigureLogLevel "debug" LogLevel.info = LogLevel.debug := by
  have h := configureLogLevel_spec LogLevel.info
  have h2 := configureLogLevel_spec LogLevel.warn
  exact ⟨h.1, h.2.2.1, h2.2.1 "bogus" (by decide) rfl, h.2.2.2 "debug" LogLevel.debug rfl⟩

end Cli
